import Mathlib

/-!
Verification of the rudp reliable-UDP library (github.com/cbodonnell/rudp).

The Go sources are shallowly embedded: machine integers become `Nat` with
explicit `% 2^w` where Go wraps, byte slices become `List Nat`, Go maps
become association lists, channels become bounded `List` queues, and the
per-connection goroutines (sender loop, retransmission ticker, ingest path)
become events of a step relation on the `Connection` state.  Wall-clock
time is a `Nat` (milliseconds) passed to each event, mirroring the
`time.Now()` reads in the source.
-/

namespace RUDP

set_option maxRecDepth 100000

/-- Constants from packet.go and reliability.go. -/
def MaxPacketSize : Nat := 1400

def HeaderSize : Nat := 16

/-- Send rejects payloads larger than MaxPacketSize - HeaderSize = 1384. -/
def MaxPayload : Nat := MaxPacketSize - HeaderSize

/-- RetransmissionTimeout = 100 ms (time modelled in milliseconds). -/
def RetransmissionTimeout : Nat := 100

def MaxRetransmissions : Nat := 5

/-- Capacity of the inbound and outbound channels (`make(chan *Packet, 256)`). -/
def QueueCapacity : Nat := 256

/-- DeliveryMode constants (Go: `type DeliveryMode byte`, iota). -/
def Unreliable : Nat := 0

def UnreliableOrdered : Nat := 1

def Reliable : Nat := 2

def ReliableOrdered : Nat := 3

/-- PacketType constants (Go: `type PacketType byte`, iota). -/
def DATA : Nat := 0

def CONNECT : Nat := 1

def CONNECT_ACK : Nat := 2

def DISCONNECT : Nat := 3

/-- The error values of errors.go. -/
inductive RudpError where
  | InvalidPacket
  | PacketTooLarge
  | ConnectionClosed
  | Timeout
  | BufferFull
deriving DecidableEq, Repr

/-- Packet (packet.go).  Wire fields plus the bookkeeping fields `Attempts`
and `LastSent`.  `uid` is a ghost field modelling Go pointer identity: the
same `*Packet` object is shared between `pendingAcks` and the outbound
queue, so a mutation through one alias is visible through the other. -/
structure Packet where
  ptype : Nat := 0
  ClientID : Nat := 0
  ID : Nat := 0
  Sequence : Nat := 0
  Ack : Nat := 0
  AckBits : Nat := 0
  Mode : Nat := 0
  Timestamp : Nat := 0
  Data : List Nat := []
  Attempts : Nat := 0
  LastSent : Nat := 0
  uid : Nat := 0
deriving DecidableEq, Repr

/-- IsReliable (packet.go): mode is Reliable or ReliableOrdered. -/
def Packet.IsReliable (p : Packet) : Bool :=
  p.Mode == Reliable || p.Mode == ReliableOrdered

/-- IsOrdered (packet.go): mode is UnreliableOrdered or ReliableOrdered. -/
def Packet.IsOrdered (p : Packet) : Bool :=
  p.Mode == UnreliableOrdered || p.Mode == ReliableOrdered

/-- Little-endian bytes of a uint16 (binary.LittleEndian.PutUint16). -/
def le16 (v : Nat) : List Nat := [v % 256, v / 256 % 256]

/-- Little-endian bytes of a uint32 (binary.LittleEndian.PutUint32). -/
def le32 (v : Nat) : List Nat :=
  [v % 256, v / 256 % 256, v / 65536 % 256, v / 16777216 % 256]

/-- Marshal (packet.go): 16-byte header followed by the payload. -/
def Packet.Marshal (p : Packet) : List Nat :=
  [p.ptype % 256] ++ le32 p.ClientID ++ le16 p.Sequence ++ le16 p.Ack ++
    le32 p.AckBits ++ [p.Mode % 256] ++ le16 p.Data.length ++ p.Data

/-- Byte read (out-of-range reads only arise after the length checks). -/
def read8 (b : List Nat) (i : Nat) : Nat := b.getD i 0

/-- binary.LittleEndian.Uint16 at offset i. -/
def read16 (b : List Nat) (i : Nat) : Nat := read8 b i + 256 * read8 b (i + 1)

/-- binary.LittleEndian.Uint32 at offset i. -/
def read32 (b : List Nat) (i : Nat) : Nat :=
  read8 b i + 256 * read8 b (i + 1) + 65536 * read8 b (i + 2) +
    16777216 * read8 b (i + 3)

/-- The declared payload length of a byte string: bytes 14..15, little-endian. -/
def declaredLength (b : List Nat) : Nat := read16 b 14

/-- Unmarshal (packet.go).  Fails with InvalidPacket when the input is
shorter than the header, or shorter than header plus declared length;
otherwise fills a fresh packet (`&Packet{}` in HandleIncomingPacket), so the
non-wire fields are zero. -/
def Packet.Unmarshal (b : List Nat) : Except RudpError Packet :=
  if b.length < HeaderSize then .error .InvalidPacket
  else if b.length < HeaderSize + read16 b 14 then .error .InvalidPacket
  else .ok
    { ptype := read8 b 0
      ClientID := read32 b 1
      Sequence := read16 b 5
      Ack := read16 b 7
      AckBits := read32 b 9
      Mode := read8 b 13
      Data := (b.drop HeaderSize).take (read16 b 14) }

/-- sequenceGreater (reliability.go): wraparound-aware comparison of two
uint16 sequence numbers. -/
def sequenceGreater (s1 s2 : Nat) : Bool :=
  (decide (s2 < s1) && decide (s1 - s2 ≤ 32768)) ||
    (decide (s1 < s2) && decide (32768 < s2 - s1))

theorem sequenceGreater_iff (s1 s2 : Nat) :
    sequenceGreater s1 s2 = true ↔
      (s2 < s1 ∧ s1 - s2 ≤ 32768) ∨ (s1 < s2 ∧ 32768 < s2 - s1) := by
  simp [sequenceGreater]

theorem sequenceGreater_irrefl (a : Nat) : sequenceGreater a a = false := by
  simp [sequenceGreater]

/-- Well-formedness of a packet's wire fields: each fits its Go machine
type (byte / uint32 / uint16 / uint32 / byte, payload of bytes). -/
def Packet.WF (p : Packet) : Prop :=
  p.ptype < 256 ∧ p.ClientID < 4294967296 ∧ p.Sequence < 65536 ∧
    p.Ack < 65536 ∧ p.AckBits < 4294967296 ∧ p.Mode < 256 ∧
    ∀ x ∈ p.Data, x < 256

instance (p : Packet) : Decidable p.WF := by
  unfold Packet.WF; infer_instance

/-- Helper: an explicit 16-byte header in front of a payload. -/
def cons16 (x0 x1 x2 x3 x4 x5 x6 x7 x8 x9 x10 x11 x12 x13 x14 x15 : Nat)
    (rest : List Nat) : List Nat :=
  x0 :: x1 :: x2 :: x3 :: x4 :: x5 :: x6 :: x7 :: x8 :: x9 :: x10 :: x11 ::
    x12 :: x13 :: x14 :: x15 :: rest

theorem marshal_eq (p : Packet) :
    p.Marshal = cons16 (p.ptype % 256)
      (p.ClientID % 256) (p.ClientID / 256 % 256) (p.ClientID / 65536 % 256)
      (p.ClientID / 16777216 % 256)
      (p.Sequence % 256) (p.Sequence / 256 % 256)
      (p.Ack % 256) (p.Ack / 256 % 256)
      (p.AckBits % 256) (p.AckBits / 256 % 256) (p.AckBits / 65536 % 256)
      (p.AckBits / 16777216 % 256)
      (p.Mode % 256)
      (p.Data.length % 256) (p.Data.length / 256 % 256) p.Data := by
  simp [Packet.Marshal, le16, le32, cons16]

theorem unmarshal_cons16
    (x0 x1 x2 x3 x4 x5 x6 x7 x8 x9 x10 x11 x12 x13 x14 x15 : Nat)
    (rest : List Nat) (h : x14 + 256 * x15 = rest.length) :
    Packet.Unmarshal (cons16 x0 x1 x2 x3 x4 x5 x6 x7 x8 x9 x10 x11 x12 x13
        x14 x15 rest) =
      Except.ok
        { ptype := x0
          ClientID := x1 + 256 * x2 + 65536 * x3 + 16777216 * x4
          Sequence := x5 + 256 * x6
          Ack := x7 + 256 * x8
          AckBits := x9 + 256 * x10 + 65536 * x11 + 16777216 * x12
          Mode := x13
          Data := rest } := by
  have hL : (cons16 x0 x1 x2 x3 x4 x5 x6 x7 x8 x9 x10 x11 x12 x13 x14 x15
      rest).length = rest.length + 16 := by
    simp [cons16]
  have h14 : read16 (cons16 x0 x1 x2 x3 x4 x5 x6 x7 x8 x9 x10 x11 x12 x13
      x14 x15 rest) 14 = x14 + 256 * x15 := rfl
  have hdrop : List.drop 16 (cons16 x0 x1 x2 x3 x4 x5 x6 x7 x8 x9 x10 x11
      x12 x13 x14 x15 rest) = rest := rfl
  unfold Packet.Unmarshal
  simp only [HeaderSize, hL, h14, h, hdrop]
  rw [if_neg (by omega), if_neg (by omega), List.take_length]
  rfl

theorem unmarshal_marshal (p : Packet) (hlen : p.Data.length < 65536) :
    Packet.Unmarshal p.Marshal = Except.ok
      { ptype := p.ptype % 256, ClientID := p.ClientID % 4294967296,
        Sequence := p.Sequence % 65536, Ack := p.Ack % 65536,
        AckBits := p.AckBits % 4294967296, Mode := p.Mode % 256,
        Data := p.Data } := by
  rw [marshal_eq, unmarshal_cons16]
  · simp only [Except.ok.injEq, Packet.mk.injEq, and_true, true_and]
    omega
  · omega

/-- C7 witness packet. -/
def p0 : Packet :=
  { ptype := DATA, ClientID := 3735928559, Sequence := 65535, Ack := 7,
    AckBits := 4294967295, Mode := ReliableOrdered, Data := [65, 0, 255] }

/-- C7: for every packet whose payload is at most MAX_PAYLOAD = 1384 bytes
(and whose fields fit their machine widths, as they do in Go), Unmarshal of
Marshal succeeds and reproduces all wire fields. -/
theorem packet_roundtrip (p : Packet) (hwf : p.WF)
    (hlen : p.Data.length ≤ MaxPayload) :
    ∃ q, Packet.Unmarshal p.Marshal = Except.ok q ∧ q.ptype = p.ptype ∧
      q.ClientID = p.ClientID ∧ q.Sequence = p.Sequence ∧ q.Ack = p.Ack ∧
      q.AckBits = p.AckBits ∧ q.Mode = p.Mode ∧ q.Data = p.Data := by
  obtain ⟨h1, h2, h3, h4, h5, h6, -⟩ := hwf
  have hl : p.Data.length < 65536 := by
    have hmp : MaxPayload = 1384 := by decide
    omega
  refine ⟨_, unmarshal_marshal p hl, ?_, ?_, ?_, ?_, ?_, ?_, ?_⟩
  · show p.ptype % 256 = p.ptype
    omega
  · show p.ClientID % 4294967296 = p.ClientID
    omega
  · show p.Sequence % 65536 = p.Sequence
    omega
  · show p.Ack % 65536 = p.Ack
    omega
  · show p.AckBits % 4294967296 = p.AckBits
    omega
  · show p.Mode % 256 = p.Mode
    omega
  · rfl

/-- C7 witness: the round-trip theorem applied at a concrete packet. -/
theorem packet_roundtrip_witness :
    p0.WF ∧ p0.Data.length ≤ MaxPayload ∧
      ∃ q, Packet.Unmarshal p0.Marshal = Except.ok q ∧ q.ptype = p0.ptype ∧
        q.ClientID = p0.ClientID ∧ q.Sequence = p0.Sequence ∧
        q.Ack = p0.Ack ∧ q.AckBits = p0.AckBits ∧ q.Mode = p0.Mode ∧
        q.Data = p0.Data :=
  ⟨by decide, by decide, packet_roundtrip p0 (by decide) (by decide)⟩

/-- C8: Unmarshal fails with InvalidPacket exactly when the input is shorter
than the 16-byte header or shorter than header plus the declared payload
length (bytes 14..15); in every other case it succeeds. -/
theorem unmarshal_framing (b : List Nat) :
    (Packet.Unmarshal b = Except.error RudpError.InvalidPacket ↔
      (b.length < HeaderSize ∨ b.length < HeaderSize + declaredLength b)) ∧
    ((Packet.Unmarshal b).isOk = true ↔
      (HeaderSize ≤ b.length ∧ HeaderSize + declaredLength b ≤ b.length)) := by
  by_cases h1 : b.length < HeaderSize
  · simp [Packet.Unmarshal, h1, declaredLength, Except.isOk, Except.toBool]
    try omega
  · by_cases h2 : b.length < HeaderSize + read16 b 14
    · simp [Packet.Unmarshal, h1, h2, declaredLength, Except.isOk,
        Except.toBool]
      try omega
    · simp [Packet.Unmarshal, h1, h2, declaredLength, Except.isOk,
        Except.toBool]
      try omega

/-- C9: for distinct 16-bit sequence numbers within half a window of each
other, exactly one direction of sequenceGreater holds.  The window
hypothesis |a - b| < 32768 is phrased with truncated subtraction: one of
the two differences is zero, so their sum is the absolute difference. -/
theorem sequence_order_trichotomy (a b : Nat) (ha : a < 65536)
    (hb : b < 65536) (hne : a ≠ b) (hwin : (a - b) + (b - a) < 32768) :
    (sequenceGreater a b = true ∧ sequenceGreater b a = false) ∨
      (sequenceGreater b a = true ∧ sequenceGreater a b = false) := by
  simp only [Bool.eq_false_iff, ne_eq, sequenceGreater_iff]
  omega

/-- C9 witness: trichotomy applied at the concrete pair (5, 3). -/
theorem sequence_order_trichotomy_witness :
    (5 : Nat) ≠ 3 ∧ (5 - 3) + (3 - 5) < 32768 ∧
      ((sequenceGreater 5 3 = true ∧ sequenceGreater 3 5 = false) ∨
        (sequenceGreater 3 5 = true ∧ sequenceGreater 5 3 = false)) :=
  ⟨by decide, by decide,
    sequence_order_trichotomy 5 3 (by decide) (by decide) (by decide)
      (by decide)⟩

/-- Association-list model of the Go map `pendingAcks : map[uint16]*Packet`:
lookup by key. -/
def mapFind (m : List (Nat × Packet)) (k : Nat) : Option Packet :=
  (m.find? fun e => e.1 == k).map fun e => e.2

/-- `delete(m, k)`. -/
def mapErase (m : List (Nat × Packet)) (k : Nat) : List (Nat × Packet) :=
  m.filter fun e => e.1 != k

/-- `m[k] = v` (overwrites any prior entry with that key). -/
def mapInsert (m : List (Nat × Packet)) (k : Nat) (v : Packet) :
    List (Nat × Packet) :=
  mapErase m k ++ [(k, v)]

/-- In-place mutation of the packet object stored under key k (Go mutates
through the shared pointer). -/
def mapUpdate (m : List (Nat × Packet)) (k : Nat) (f : Packet → Packet) :
    List (Nat × Packet) :=
  m.map fun e => if e.1 == k then (e.1, f e.2) else e

/-- The orderedBuffer association list.  Each entry carries a ghost third
component: the value of remoteSequence at the moment the entry was
inserted (needed to state the spec's insert-time invariant). -/
def obFind (m : List (Nat × Packet × Nat)) (k : Nat) : Option Packet :=
  (m.find? fun e => e.1 == k).map fun e => e.2.1

def obErase (m : List (Nat × Packet × Nat)) (k : Nat) :
    List (Nat × Packet × Nat) :=
  m.filter fun e => e.1 != k

def obInsert (m : List (Nat × Packet × Nat)) (k : Nat) (v : Packet)
    (ghost : Nat) : List (Nat × Packet × Nat) :=
  obErase m k ++ [(k, v, ghost)]

/-- Connection (connection.go).  Channels are bounded lists; `nextUid` is a
ghost counter handing out packet identities (Go pointer values).  The
recvBuffer field of the source is allocated but never used, so it is
omitted. -/
structure Connection where
  localSequence : Nat := 0
  remoteSequence : Nat := 0
  ackBits : Nat := 0
  pendingAcks : List (Nat × Packet) := []
  orderedBuffer : List (Nat × Packet × Nat) := []
  lastReceived : Nat := 0
  lastSent : Nat := 0
  closed : Bool := false
  inbound : List Packet := []
  outbound : List Packet := []
  nextUid : Nat := 0
deriving DecidableEq, Repr

/-- NewConnection (connection.go): zeroed state, lastReceived = now. -/
def NewConnection (now : Nat) : Connection := { lastReceived := now }

/-- Send (connection.go).  Mirrors the source order exactly: closed check,
size check, packet construction, localSequence increment (uint16 wrap),
pendingAcks insert for reliable modes, and only then the non-blocking
enqueue that reports BufferFull. -/
def Connection.Send (c : Connection) (now : Nat) (data : List Nat)
    (mode : Nat) : Connection × Option RudpError :=
  if c.closed then (c, some .ConnectionClosed)
  else if MaxPacketSize - HeaderSize < data.length then
    (c, some .PacketTooLarge)
  else
    let packet : Packet :=
      { Sequence := c.localSequence, Ack := c.remoteSequence,
        AckBits := c.ackBits, Mode := mode, Data := data,
        Timestamp := now, uid := c.nextUid }
    let c1 := { c with localSequence := (c.localSequence + 1) % 65536,
                       nextUid := c.nextUid + 1 }
    let c2 :=
      if packet.IsReliable then
        { c1 with pendingAcks :=
            (mapInsert c1.pendingAcks packet.Sequence packet) }
      else c1
    if c2.outbound.length < QueueCapacity then
      ({ c2 with outbound := c2.outbound ++ [packet] }, none)
    else (c2, some .BufferFull)

/-- Receive (connection.go): next inbound packet; `none` models blocking on
an empty queue (or ConnectionClosed once closed). -/
def Connection.Receive (c : Connection) : Option (Packet × Connection) :=
  match c.inbound with
  | [] => none
  | p :: rest => some (p, { c with inbound := rest })

/-- sendPacket (reliability.go): stamps LastSent, increments Attempts, and
records c.lastSent.  The mutation happens through the shared pointer, so it
is applied to the pendingAcks entry holding the same object (same uid). -/
def Connection.sendPacket (c : Connection) (now : Nat) (packet : Packet) :
    Connection :=
  let c1 := { c with lastSent := now }
  match mapFind c1.pendingAcks packet.Sequence with
  | some q =>
    if q.uid == packet.uid then
      { c1 with pendingAcks :=
          (mapUpdate c1.pendingAcks packet.Sequence
            fun r => { r with Attempts := r.Attempts + 1, LastSent := now }) }
    else c1
  | none => c1

/-- One step of processOutbound (reliability.go): take the next packet off
the outbound channel and transmit it. -/
def Connection.drainOutbound (c : Connection) (now : Nat) : Connection :=
  match c.outbound with
  | [] => c
  | p :: rest => Connection.sendPacket { c with outbound := rest } now p

/-- One entry of the checkRetransmissions walk (reliability.go): timed-out
entries are evicted once Attempts reaches MaxRetransmissions, otherwise
re-enqueued onto outbound unless the channel is full (select/default). -/
def tickEntry (now : Nat) (acc : List (Nat × Packet) × List Packet)
    (e : Nat × Packet) : List (Nat × Packet) × List Packet :=
  if RetransmissionTimeout < now - e.2.LastSent then
    if MaxRetransmissions ≤ e.2.Attempts then acc
    else if acc.2.length < QueueCapacity then (acc.1 ++ [e], acc.2 ++ [e.2])
    else (acc.1 ++ [e], acc.2)
  else (acc.1 ++ [e], acc.2)

/-- checkRetransmissions (reliability.go): walk pendingAcks. -/
def Connection.checkRetransmissions (c : Connection) (now : Nat) :
    Connection :=
  let r := c.pendingAcks.foldl (tickEntry now) ([], c.outbound)
  { c with pendingAcks := r.1, outbound := r.2 }

/-- processAcknowledgments (reliability.go): drop the explicit ack, then
every sequence `ack - (i+1)` (uint16 wrap) whose ack bit is set. -/
def Connection.processAcknowledgments (c : Connection) (ack : Nat)
    (ackBits : Nat) : Connection :=
  let c1 := { c with pendingAcks := mapErase c.pendingAcks ack }
  (List.range 32).foldl
    (fun s i =>
      if ackBits.testBit i then
        { s with pendingAcks :=
            mapErase s.pendingAcks ((ack + 65536 - (i + 1)) % 65536) }
      else s)
    c1

/-- updateAckBits (reliability.go): `diff := newSeq - remoteSequence`
(uint16 wrap); reset on a gap larger than 32, else shift and set bit 0
(uint32 truncation). -/
def Connection.updateAckBits (c : Connection) (newSeq : Nat) : Connection :=
  let diff := (newSeq + 65536 - c.remoteSequence) % 65536
  if 32 < diff then { c with ackBits := 0 }
  else { c with ackBits := (c.ackBits <<< diff ||| 1) % 4294967296 }

/-- deliverPacket (reliability.go): push onto the inbound channel.  The
source blocks when the channel is full; states reached in the theorems
below never fill it, and the model drops in that unreached case. -/
def Connection.deliverPacket (c : Connection) (p : Packet) : Connection :=
  if c.inbound.length < QueueCapacity then
    { c with inbound := c.inbound ++ [p] }
  else c

/-- The consecutive-delivery loop of handleOrderedDelivery: while the
buffer holds remoteSequence+1 (uint16 wrap), remove it, advance the
cursor, deliver.  Each iteration deletes one entry, so the buffer size
bounds the iteration count (the Go loop terminates for the same reason). -/
def drainOrderedLoop : Nat → Connection → Connection
  | 0, c => c
  | fuel + 1, c =>
    match obFind c.orderedBuffer ((c.remoteSequence + 1) % 65536) with
    | some p =>
      drainOrderedLoop fuel
        (Connection.deliverPacket
          { c with
              orderedBuffer :=
                (obErase c.orderedBuffer ((c.remoteSequence + 1) % 65536)),
              remoteSequence := (c.remoteSequence + 1) % 65536 } p)
    | none => c

/-- handleOrderedDelivery (reliability.go): insert keyed by sequence
(recording the current remoteSequence in the ghost slot), then drain. -/
def Connection.handleOrderedDelivery (c : Connection) (p : Packet) :
    Connection :=
  let c1 := { c with orderedBuffer :=
    (obInsert c.orderedBuffer p.Sequence p c.remoteSequence) }
  drainOrderedLoop c1.orderedBuffer.length c1

/-- The body of HandleIncomingPacket (reliability.go) after a successful
Unmarshal: stamp lastReceived, process acks, update the remote sequence
and ack bits when the new sequence is wrap-greater, then route by mode. -/
def Connection.processIncomingPacket (c : Connection) (now : Nat)
    (p : Packet) : Connection :=
  let c1 := { c with lastReceived := now }
  let c2 := c1.processAcknowledgments p.Ack p.AckBits
  let c3 :=
    if sequenceGreater p.Sequence c2.remoteSequence then
      { c2.updateAckBits p.Sequence with remoteSequence := p.Sequence }
    else c2
  if p.IsOrdered then c3.handleOrderedDelivery p else c3.deliverPacket p

/-- HandleIncomingPacket (reliability.go): unmarshal, then process. -/
def Connection.HandleIncomingPacket (c : Connection) (now : Nat)
    (data : List Nat) : Connection × Option RudpError :=
  match Packet.Unmarshal data with
  | .error e => (c, some e)
  | .ok p => (c.processIncomingPacket now p, none)

/-- Close (connection.go): idempotent, flips the terminal flag. -/
def Connection.Close (c : Connection) : Connection := { c with closed := true }

/-- The concurrent tasks touching one connection, as atomic events (each Go
handler runs under the per-connection lock).  `now` is the time observed by
the event. -/
inductive Event where
  | send (now : Nat) (data : List Nat) (mode : Nat)
  | drain (now : Nat)
  | tick (now : Nat)
  | incoming (now : Nat) (data : List Nat)
  | close
deriving Repr

def step (c : Connection) (e : Event) : Connection :=
  match e with
  | .send now data mode => (c.Send now data mode).1
  | .drain now => c.drainOutbound now
  | .tick now => c.checkRetransmissions now
  | .incoming now data => (c.HandleIncomingPacket now data).1
  | .close => c.Close

/-- States reachable by an interleaving of the connection's tasks, starting
from a fresh connection. -/
def run (evs : List Event) : Connection :=
  evs.foldl step (NewConnection 0)

/-- Scenario S5: ReliableOrdered packets with sequences 1, 3, 2 and
payloads "A", "C", "B". -/
def pktA : Packet := { Sequence := 1, Mode := ReliableOrdered, Data := [65] }

def pktC : Packet := { Sequence := 3, Mode := ReliableOrdered, Data := [67] }

def pktB : Packet := { Sequence := 2, Mode := ReliableOrdered, Data := [66] }

def s5trace : List Event :=
  [.incoming 0 pktA.Marshal, .incoming 0 pktC.Marshal,
    .incoming 0 pktB.Marshal]

/-- C1: feeding ReliableOrdered packets with sequences 1, 3, 2 into the
ingest path of a fresh connection delivers NOTHING to the application:
inbound stays empty, Receive has nothing to return, and all three packets
are stranded in orderedBuffer.  HandleIncomingPacket advances
remoteSequence to the arriving sequence before handleOrderedDelivery runs,
so the drain condition orderedBuffer[remoteSequence+1] never matches the
packet just inserted; the claimed delivery of "A", "B", "C" never
happens. -/
theorem ordered_delivery_stalls :
    (run s5trace).inbound = [] ∧ (run s5trace).Receive = none ∧
      ((run s5trace).orderedBuffer.map fun e => e.1) = [1, 3, 2] := by
  decide

/-- Ingest of DATA packets with sequences 1 then 3 on a fresh connection. -/
def ackSeq1 : Packet := { Sequence := 1 }

def ackSeq3 : Packet := { Sequence := 3 }

def ackTrace : List Event :=
  [.incoming 0 ackSeq1.Marshal, .incoming 0 ackSeq3.Marshal]

/-- C2: after ingesting wrap-increasing sequences 1 then 3 on a fresh
connection the code leaves ackBits = 5 (bits 0 and 2 set, asserting
sequences 3-1 = 2 and 3-3 = 0 received, neither of which ever arrived)
while the claimed bitfield semantics require ackBits = 2 (only bit 1 set,
since 3-2 = 1 is the one earlier sequence received).  updateAckBits ors in
bit 0 instead of bit diff-1, off by one against the consumer
processAcknowledgments which reads bit i as acknowledging ack-(i+1). -/
theorem ackbits_off_by_one :
    (run ackTrace).remoteSequence = 3 ∧ (run ackTrace).ackBits = 5 ∧
      Nat.testBit (run ackTrace).ackBits 1 = false ∧
      Nat.testBit (run ackTrace).ackBits 0 = true ∧
      Nat.testBit (run ackTrace).ackBits 2 = true ∧ (5 : Nat) ≠ 2 := by
  decide

/-- A fresh connection whose outbound queue is completely full. -/
def cFull : Connection :=
  { NewConnection 0 with outbound := List.replicate 256 {} }

/-- C3 counterexample: Send on a connection with a saturated outbound queue
returns BufferFull, yet the state is NOT unchanged: localSequence has been
incremented and the reliable packet has been inserted into pendingAcks,
because the source performs the channel-full check only after mutating. -/
theorem send_bufferfull_mutates_state :
    (cFull.Send 0 [1] Reliable).2 = some RudpError.BufferFull ∧
      (cFull.Send 0 [1] Reliable).1.localSequence = 1 ∧
      cFull.localSequence = 0 ∧
      ((cFull.Send 0 [1] Reliable).1.pendingAcks.map fun e => e.1) = [0] ∧
      cFull.pendingAcks = [] := by
  decide

/-- One ordered packet into a fresh connection. -/
def obTrace : List Event := [.incoming 0 pktA.Marshal]

/-- C4 counterexample: after ingesting one ReliableOrdered packet with
sequence 1 on a fresh connection, orderedBuffer holds an entry whose
sequence (1) was NOT strictly wrap-greater than the remoteSequence at the
moment of insertion: remoteSequence had already been advanced to 1 before
handleOrderedDelivery inserted the packet. -/
theorem orderedBuffer_strict_counterexample :
    ¬ (∀ e ∈ (run obTrace).orderedBuffer,
        e.2.1.IsOrdered = true ∧ sequenceGreater e.2.1.Sequence e.2.2 = true) := by
  decide

/-- A schedule in which the retransmission ticker fires twice (at t = 800)
before the sender loop drains the outbound queue. -/
def attemptsTrace : List Event :=
  [.send 0 [1] 2, .drain 0, .tick 200, .drain 200, .tick 400, .drain 400,
    .tick 600, .drain 600, .tick 800, .tick 800, .drain 850, .drain 850]

/-- C5 counterexample: under attemptsTrace the single pendingAcks entry
ends with Attempts = 6 > MAX_RETRANSMISSIONS = 5 while still pending: the
two ticks each re-enqueued the shared packet object (Attempts = 4 < 5 at
both checks) and the two subsequent sends incremented it twice. -/
theorem pendingAcks_attempts_counterexample :
    ¬ (∀ e ∈ (run attemptsTrace).pendingAcks,
        e.2.IsReliable = true ∧ e.2.Attempts ≤ MaxRetransmissions) := by
  decide

/-- Wraparound setup for C10: an ordered packet parked at sequence 33000
(not wrap-greater than 0), then unordered packets moving remoteSequence to
20000 and then 32999. -/
def pOrd33000 : Packet := { Sequence := 33000, Mode := ReliableOrdered }

def pUnrel20000 : Packet := { Sequence := 20000 }

def pUnrel32999 : Packet := { Sequence := 32999 }

def pOrd32999 : Packet := { Sequence := 32999, Mode := ReliableOrdered }

def cursorTrace : List Event :=
  [.incoming 0 pOrd33000.Marshal, .incoming 0 pUnrel20000.Marshal,
    .incoming 0 pUnrel32999.Marshal]

/-- C10 counterexample: the reachable state run cursorTrace has
remoteSequence = 32999 and orderedBuffer containing sequence 33000; an
incoming ordered packet whose sequence equals remoteSequence (32999) then
CHANGES remoteSequence to 33000: the sequence-tracking step is indeed
skipped (sequenceGreater(s,s) is false) but the ordered drain finds
remoteSequence+1 buffered and advances the cursor. -/
theorem seq_equal_cursor_counterexample :
    (run cursorTrace).remoteSequence = 32999 ∧
      read16 pOrd32999.Marshal 5 = 32999 ∧
      (step (run cursorTrace)
        (Event.incoming 0 pOrd32999.Marshal)).remoteSequence = 33000 ∧
      (33000 : Nat) ≠ 32999 := by
  decide

/-- The packet Send constructs from the connection state: sequence is the
current localSequence, ack the current remoteSequence, ack-bits the current
ackBits. -/
def mkSendPacket (c : Connection) (now : Nat) (data : List Nat)
    (mode : Nat) : Packet :=
  { Sequence := c.localSequence, Ack := c.remoteSequence,
    AckBits := c.ackBits, Mode := mode, Data := data, Timestamp := now,
    uid := c.nextUid }

/-- C3 (amended): Send fails with ConnectionClosed when closed and with
PacketTooLarge when the payload exceeds MAX_PAYLOAD = 1384, and on those
two failures the state is unchanged.  Otherwise a packet carrying the
current localSequence/remoteSequence/ackBits is constructed, localSequence
is incremented mod 2^16 and reliable packets are inserted into pendingAcks
BEFORE the queue-capacity check, so a BufferFull failure still leaves those
mutations behind; only on success is the packet also enqueued. -/
theorem send_contract (c : Connection) (now : Nat) (data : List Nat)
    (mode : Nat) :
    (c.closed = true → c.Send now data mode = (c, some RudpError.ConnectionClosed)) ∧
    (c.closed = false → MaxPayload < data.length →
      c.Send now data mode = (c, some RudpError.PacketTooLarge)) ∧
    (c.closed = false → data.length ≤ MaxPayload →
      ∃ packet : Packet, packet.Sequence = c.localSequence ∧
        packet.Ack = c.remoteSequence ∧ packet.AckBits = c.ackBits ∧
        packet.Mode = mode ∧ packet.Data = data ∧
        (c.Send now data mode).1.localSequence = (c.localSequence + 1) % 65536 ∧
        (c.Send now data mode).1.pendingAcks =
          (if packet.IsReliable then
            mapInsert c.pendingAcks c.localSequence packet
           else c.pendingAcks) ∧
        (c.outbound.length < QueueCapacity →
          (c.Send now data mode).2 = none ∧
          (c.Send now data mode).1.outbound = c.outbound ++ [packet]) ∧
        (QueueCapacity ≤ c.outbound.length →
          (c.Send now data mode).2 = some RudpError.BufferFull ∧
          (c.Send now data mode).1.outbound = c.outbound)) := by
  have hMP : MaxPacketSize - HeaderSize = MaxPayload := rfl
  refine ⟨fun hcl => ?_, fun hcl hlen => ?_, fun hcl hlen => ?_⟩
  · simp [Connection.Send, hcl]
  · rw [Connection.Send, if_neg (by simp [hcl]), if_pos (by omega)]
  · refine ⟨mkSendPacket c now data mode, rfl, rfl, rfl, rfl, rfl,
      ?_, ?_, ?_, ?_⟩
    · rw [Connection.Send, if_neg (by simp [hcl]), if_neg (by omega)]
      by_cases hrel : (mode == Reliable || mode == ReliableOrdered) = true <;>
        by_cases hcap : c.outbound.length < QueueCapacity <;>
        simp [Packet.IsReliable, hrel, hcap]
    · rw [Connection.Send, if_neg (by simp [hcl]), if_neg (by omega)]
      by_cases hrel : (mode == Reliable || mode == ReliableOrdered) = true <;>
        by_cases hcap : c.outbound.length < QueueCapacity <;>
        simp [Packet.IsReliable, hrel, hcap, mkSendPacket, mapInsert]
    · intro hcap
      rw [Connection.Send, if_neg (by simp [hcl]), if_neg (by omega)]
      by_cases hrel : (mode == Reliable || mode == ReliableOrdered) = true <;>
        simp [Packet.IsReliable, hrel, hcap, mkSendPacket]
    · intro hcap
      have hc : ¬ (c.outbound.length < QueueCapacity) := by omega
      rw [Connection.Send, if_neg (by simp [hcl]), if_neg (by omega)]
      by_cases hrel : (mode == Reliable || mode == ReliableOrdered) = true <;>
        simp [Packet.IsReliable, hrel, hc, mkSendPacket]

/-- C3 witness: the Send contract applied at a fresh connection sending
one reliable byte. -/
theorem send_contract_witness :
    ((NewConnection 0).Send 0 [1] Reliable).2 = none ∧
      ((NewConnection 0).Send 0 [1] Reliable).1.localSequence = 1 := by
  obtain ⟨-, -, h3⟩ := send_contract (NewConnection 0) 0 [1] Reliable
  obtain ⟨pkt, -, -, -, -, -, hseq, -, henq, -⟩ := h3 rfl (by decide)
  exact ⟨(henq (by decide)).1, by rw [hseq]; rfl⟩

/-- Entries of a map deletion come from the original map. -/
theorem mem_mapErase (m : List (Nat × Packet)) (k : Nat) (e : Nat × Packet)
    (h : e ∈ mapErase m k) : e ∈ m :=
  (List.mem_filter.mp h).1

/-- Entries of a map insert are old entries or the inserted pair. -/
theorem mem_mapInsert (m : List (Nat × Packet)) (k : Nat) (v : Packet)
    (e : Nat × Packet) (h : e ∈ mapInsert m k v) : e ∈ m ∨ e = (k, v) := by
  unfold mapInsert at h
  rcases List.mem_append.mp h with h1 | h1
  · exact Or.inl (mem_mapErase _ _ _ h1)
  · simp only [List.mem_singleton] at h1
    exact Or.inr h1

/-- Entries after the in-place update are old entries or updated old
entries. -/
theorem mem_mapUpdate (m : List (Nat × Packet)) (k : Nat)
    (f : Packet → Packet) (e : Nat × Packet) (h : e ∈ mapUpdate m k f) :
    (∃ a ∈ m, e = a) ∨ (∃ a ∈ m, e = (a.1, f a.2)) := by
  unfold mapUpdate at h
  obtain ⟨a, ha, hae⟩ := List.mem_map.mp h
  by_cases hk : (a.1 == k) = true
  · exact Or.inr ⟨a, ha, by rw [← hae, if_pos hk]⟩
  · exact Or.inl ⟨a, ha, by rw [← hae, if_neg hk]⟩

theorem mem_obErase (m : List (Nat × Packet × Nat)) (k : Nat)
    (e : Nat × Packet × Nat) (h : e ∈ obErase m k) : e ∈ m :=
  (List.mem_filter.mp h).1

theorem obFind_eq_none_iff (m : List (Nat × Packet × Nat)) (k : Nat) :
    obFind m k = none ↔ ∀ e ∈ m, e.1 ≠ k := by
  unfold obFind
  simp [List.find?_eq_none]

theorem obFind_insert_ne (m : List (Nat × Packet × Nat)) (k k' : Nat)
    (v : Packet) (g : Nat) (hk : k ≠ k') (h : obFind m k' = none) :
    obFind (obInsert m k v g) k' = none := by
  rw [obFind_eq_none_iff] at h ⊢
  intro e he
  rcases List.mem_append.mp he with h1 | h1
  · exact h e (mem_obErase _ _ _ h1)
  · simp only [List.mem_singleton] at h1
    rw [h1]
    exact hk

/-- The ack-bit scan of processAcknowledgments only deletes pendingAcks
entries; every other field is untouched. -/
theorem ackFold_shape (ack bits : Nat) (L : List Nat) :
    ∀ s : Connection, ∃ m,
      (L.foldl
        (fun t i =>
          if bits.testBit i then
            { t with pendingAcks :=
                (mapErase t.pendingAcks ((ack + 65536 - (i + 1)) % 65536)) }
          else t) s) = { s with pendingAcks := m } ∧
        ∀ e ∈ m, e ∈ s.pendingAcks := by
  induction L with
  | nil =>
    intro s
    exact ⟨s.pendingAcks, rfl, fun e he => he⟩
  | cons i tl ih =>
    intro s
    simp only [List.foldl_cons]
    by_cases hb : bits.testBit i
    · rw [if_pos hb]
      obtain ⟨m, hm, hsub⟩ := ih
        { s with pendingAcks :=
            (mapErase s.pendingAcks ((ack + 65536 - (i + 1)) % 65536)) }
      exact ⟨m, hm, fun e he => mem_mapErase _ _ _ (hsub e he)⟩
    · rw [if_neg hb]
      exact ih s

/-- processAcknowledgments changes only pendingAcks, and only by deleting
entries. -/
theorem processAcks_shape (c : Connection) (ack bits : Nat) :
    ∃ m, c.processAcknowledgments ack bits = { c with pendingAcks := m } ∧
      ∀ e ∈ m, e ∈ c.pendingAcks := by
  unfold Connection.processAcknowledgments
  obtain ⟨m, hm, hsub⟩ := ackFold_shape ack bits (List.range 32)
    { c with pendingAcks := (mapErase c.pendingAcks ack) }
  exact ⟨m, hm, fun e he => mem_mapErase _ _ _ (hsub e he)⟩

/-- deliverPacket changes only the inbound queue. -/
theorem deliverPacket_shape (c : Connection) (p : Packet) :
    ∃ inb, c.deliverPacket p = { c with inbound := inb } := by
  unfold Connection.deliverPacket
  split
  · exact ⟨_, rfl⟩
  · exact ⟨c.inbound, rfl⟩

/-- The ordered drain changes only orderedBuffer (by deletions),
remoteSequence and inbound. -/
theorem drainOrderedLoop_shape (fuel : Nat) :
    ∀ c : Connection, ∃ ob rs inb,
      drainOrderedLoop fuel c =
        { c with orderedBuffer := ob, remoteSequence := rs, inbound := inb } ∧
        ∀ e ∈ ob, e ∈ c.orderedBuffer := by
  induction fuel with
  | zero =>
    intro c
    exact ⟨c.orderedBuffer, c.remoteSequence, c.inbound, rfl, fun e he => he⟩
  | succ n ih =>
    intro c
    unfold drainOrderedLoop
    cases hf : obFind c.orderedBuffer ((c.remoteSequence + 1) % 65536) with
    | none =>
      exact ⟨c.orderedBuffer, c.remoteSequence, c.inbound, rfl,
        fun e he => he⟩
    | some p =>
      show ∃ ob rs inb,
        drainOrderedLoop n
            (Connection.deliverPacket
              { c with
                  orderedBuffer :=
                    (obErase c.orderedBuffer ((c.remoteSequence + 1) % 65536)),
                  remoteSequence := (c.remoteSequence + 1) % 65536 } p) =
          { c with orderedBuffer := ob, remoteSequence := rs,
                   inbound := inb } ∧
          ∀ e ∈ ob, e ∈ c.orderedBuffer
      obtain ⟨inb0, hdel⟩ := deliverPacket_shape
        { c with
            orderedBuffer :=
              (obErase c.orderedBuffer ((c.remoteSequence + 1) % 65536)),
            remoteSequence := (c.remoteSequence + 1) % 65536 } p
      rw [hdel]
      obtain ⟨ob, rs, inb, hdr, hsub⟩ := ih
        { c with
            orderedBuffer :=
              (obErase c.orderedBuffer ((c.remoteSequence + 1) % 65536)),
            remoteSequence := (c.remoteSequence + 1) % 65536,
            inbound := inb0 }
      exact ⟨ob, rs, inb, hdr,
        fun e he => mem_obErase _ _ _ (hsub e he)⟩

/-- If the buffer does not hold remoteSequence+1, the drain is a no-op. -/
theorem drainOrderedLoop_none (fuel : Nat) (c : Connection)
    (h : obFind c.orderedBuffer ((c.remoteSequence + 1) % 65536) = none) :
    drainOrderedLoop fuel c = c := by
  cases fuel with
  | zero => rfl
  | succ n =>
    unfold drainOrderedLoop
    rw [h]

/-- C10 (amended): an incoming packet whose sequence equals the current
remoteSequence never triggers the sequence-tracking update, because
sequenceGreater(s, s) is false: ackBits is always unchanged and the packet
is never reflected in the receiver's ack state.  remoteSequence itself is
also unchanged whenever the packet is not ordered, or the orderedBuffer
does not hold remoteSequence+1 — in particular for the very first packet
(sequence 0 against an initial remoteSequence of 0 and an empty buffer);
otherwise the ordered drain may still advance the cursor. -/
theorem seq_equal_no_ack_update (c : Connection) (now : Nat) (p : Packet)
    (h : p.Sequence = c.remoteSequence) :
    (c.processIncomingPacket now p).ackBits = c.ackBits ∧
    (p.IsOrdered = false →
      (c.processIncomingPacket now p).remoteSequence = c.remoteSequence) ∧
    (obFind c.orderedBuffer ((c.remoteSequence + 1) % 65536) = none →
      (c.processIncomingPacket now p).remoteSequence = c.remoteSequence) := by
  have hsg : sequenceGreater p.Sequence c.remoteSequence = false := by
    rw [h]
    exact sequenceGreater_irrefl _
  obtain ⟨m, hm, -⟩ :=
    processAcks_shape { c with lastReceived := now } p.Ack p.AckBits
  simp only [Connection.processIncomingPacket]
  rw [hm]
  simp only [hsg, Bool.false_eq_true, if_false]
  by_cases hord : p.IsOrdered
  · rw [if_pos hord]
    simp only [Connection.handleOrderedDelivery]
    refine ⟨?_, fun hno => ?_, fun hob => ?_⟩
    · obtain ⟨ob, rs, inb, hdr, -⟩ := drainOrderedLoop_shape
        (obInsert c.orderedBuffer p.Sequence p c.remoteSequence).length
        { c with lastReceived := now, pendingAcks := m,
                 orderedBuffer :=
                   (obInsert c.orderedBuffer p.Sequence p c.remoteSequence) }
      rw [hdr]
    · rw [hord] at hno
      cases hno
    · have hkey : (c.remoteSequence + 1) % 65536 ≠ c.remoteSequence := by
        omega
      have hnone : obFind
          (obInsert c.orderedBuffer p.Sequence p c.remoteSequence)
          ((c.remoteSequence + 1) % 65536) = none := by
        rw [h]
        exact obFind_insert_ne _ _ _ _ _ (fun he => hkey he.symm) hob
      rw [drainOrderedLoop_none _ _ hnone]
  · rw [if_neg hord]
    obtain ⟨inb, hdel⟩ :=
      deliverPacket_shape { c with lastReceived := now, pendingAcks := m } p
    rw [hdel]
    exact ⟨rfl, fun hx => rfl, fun hx => rfl⟩

/-- C10 witness: the first packet a peer sends (sequence 0 into a fresh
connection with remoteSequence 0) leaves remoteSequence and ackBits
unchanged. -/
theorem seq_equal_no_ack_update_witness :
    ((NewConnection 0).processIncomingPacket 5 {}).ackBits =
        (NewConnection 0).ackBits ∧
      (({} : Packet).IsOrdered = false →
        ((NewConnection 0).processIncomingPacket 5 {}).remoteSequence =
          (NewConnection 0).remoteSequence) ∧
      (obFind (NewConnection 0).orderedBuffer
          (((NewConnection 0).remoteSequence + 1) % 65536) = none →
        ((NewConnection 0).processIncomingPacket 5 {}).remoteSequence =
          (NewConnection 0).remoteSequence) :=
  seq_equal_no_ack_update (NewConnection 0) 5 {} rfl

/-- The predicate under which a pendingAcks entry survives a
retransmission tick: not both timed out and out of attempts. -/
def tickKeep (now : Nat) (e : Nat × Packet) : Bool :=
  !(decide (RetransmissionTimeout < now - e.2.LastSent) &&
    decide (MaxRetransmissions ≤ e.2.Attempts))

/-- The outbound queue only grows during the retransmission walk. -/
theorem tick_fold_outbound_mono (now : Nat) (L : List (Nat × Packet)) :
    ∀ acc : List (Nat × Packet) × List Packet,
      acc.2.length ≤ (L.foldl (tickEntry now) acc).2.length := by
  induction L with
  | nil =>
    intro acc
    exact Nat.le_refl _
  | cons hd tl ih =>
    intro acc
    have hstep : acc.2.length ≤ (tickEntry now acc hd).2.length := by
      unfold tickEntry
      split
      · split
        · exact Nat.le_refl _
        · split
          · simp
          · exact Nat.le_refl _
      · exact Nat.le_refl _
    exact Nat.le_trans hstep (ih _)

/-- Full characterisation of the checkRetransmissions fold: kept entries
are exactly the original entries not (timed-out and out of attempts),
unchanged and in order; the outbound queue receives, appended in walk
order, timed-out entries with attempts < 5 taken from pendingAcks; and
when the resulting queue is not full, no eligible entry was skipped. -/
theorem tick_fold_spec (now : Nat) (L : List (Nat × Packet)) :
    ∀ accP : List (Nat × Packet), ∀ accO : List Packet,
      (L.foldl (tickEntry now) (accP, accO)).1 =
          accP ++ L.filter (tickKeep now) ∧
        ∃ l, (L.foldl (tickEntry now) (accP, accO)).2 = accO ++ l ∧
          (∀ p ∈ l, ∃ s, (s, p) ∈ L ∧
            RetransmissionTimeout < now - p.LastSent ∧
            p.Attempts < MaxRetransmissions) ∧
          ((L.foldl (tickEntry now) (accP, accO)).2.length < QueueCapacity →
            ∀ e ∈ L, RetransmissionTimeout < now - e.2.LastSent →
              e.2.Attempts < MaxRetransmissions → e.2 ∈ l) := by
  induction L with
  | nil =>
    intro accP accO
    refine ⟨by simp, [], by simp, ?_, ?_⟩
    · intro p hp
      cases hp
    · intro hlen e he
      cases he
  | cons hd tl ih =>
    intro accP accO
    simp only [List.foldl_cons]
    by_cases ht : RetransmissionTimeout < now - hd.2.LastSent
    · by_cases ha : MaxRetransmissions ≤ hd.2.Attempts
      · have he : tickEntry now (accP, accO) hd = (accP, accO) := by
          unfold tickEntry
          rw [if_pos ht, if_pos ha]
        have hkeep : tickKeep now hd = false := by
          simp [tickKeep, ht, ha]
        rw [he]
        obtain ⟨h1, l, h2, h3, h4⟩ := ih accP accO
        refine ⟨?_, l, h2, ?_, ?_⟩
        · rw [h1, List.filter_cons, hkeep]
          simp
        · exact fun p hp => (h3 p hp).imp
            fun s hs => ⟨List.mem_cons_of_mem _ hs.1, hs.2⟩
        · intro hlen e hemem het hea
          rcases List.mem_cons.mp hemem with rfl | hmem
          · omega
          · exact h4 hlen e hmem het hea
      · by_cases hc : accO.length < QueueCapacity
        · have he : tickEntry now (accP, accO) hd =
              (accP ++ [hd], accO ++ [hd.2]) := by
            unfold tickEntry
            rw [if_pos ht, if_neg ha, if_pos hc]
          have hkeep : tickKeep now hd = true := by
            simp [tickKeep, ht, ha]
          rw [he]
          obtain ⟨h1, l, h2, h3, h4⟩ := ih (accP ++ [hd]) (accO ++ [hd.2])
          refine ⟨?_, hd.2 :: l, ?_, ?_, ?_⟩
          · rw [h1, List.filter_cons, hkeep]
            simp
          · rw [h2]
            simp
          · intro p hp
            rcases List.mem_cons.mp hp with rfl | hp2
            · exact ⟨hd.1, List.mem_cons_self _ _, ht, by omega⟩
            · exact (h3 p hp2).imp
                fun s hs => ⟨List.mem_cons_of_mem _ hs.1, hs.2⟩
          · intro hlen e hemem het hea
            rcases List.mem_cons.mp hemem with rfl | hmem
            · exact List.mem_cons_self _ _
            · exact List.mem_cons_of_mem _ (h4 hlen e hmem het hea)
        · have he : tickEntry now (accP, accO) hd = (accP ++ [hd], accO) := by
            unfold tickEntry
            rw [if_pos ht, if_neg ha, if_neg hc]
          rw [he]
          obtain ⟨h1, l, h2, h3, h4⟩ := ih (accP ++ [hd]) accO
          have hkeep : tickKeep now hd = true := by
            simp [tickKeep, ht, ha]
          refine ⟨?_, l, h2, ?_, ?_⟩
          · rw [h1, List.filter_cons, hkeep]
            simp
          · exact fun p hp => (h3 p hp).imp
              fun s hs => ⟨List.mem_cons_of_mem _ hs.1, hs.2⟩
          · intro hlen
            exfalso
            have hmono := tick_fold_outbound_mono now tl (accP ++ [hd], accO)
            simp only [] at hmono
            omega
    · have he : tickEntry now (accP, accO) hd = (accP ++ [hd], accO) := by
        unfold tickEntry
        rw [if_neg ht]
      have hkeep : tickKeep now hd = true := by
        simp [tickKeep, ht]
      rw [he]
      obtain ⟨h1, l, h2, h3, h4⟩ := ih (accP ++ [hd]) accO
      refine ⟨?_, l, h2, ?_, ?_⟩
      · rw [h1, List.filter_cons, hkeep]
        simp
      · exact fun p hp => (h3 p hp).imp
          fun s hs => ⟨List.mem_cons_of_mem _ hs.1, hs.2⟩
      · intro hlen e hemem het hea
        rcases List.mem_cons.mp hemem with rfl | hmem
        · omega
        · exact h4 hlen e hmem het hea

/-- C6: one retransmission tick evicts exactly the timed-out entries whose
attempt count has reached MAX_RETRANSMISSIONS = 5 (without resending them:
everything enqueued has attempts < 5), keeps every other entry unchanged —
in particular entries within the timeout are untouched and re-enqueued
packets keep their original sequence, being the very packets stored in
pendingAcks — and appends to outbound timed-out entries with attempts < 5;
if the resulting queue is not full, no such entry was skipped. -/
theorem retransmission_tick_contract (c : Connection) (now : Nat) :
    (c.checkRetransmissions now).pendingAcks =
        c.pendingAcks.filter (tickKeep now) ∧
      ∃ l, (c.checkRetransmissions now).outbound = c.outbound ++ l ∧
        (∀ p ∈ l, ∃ s, (s, p) ∈ c.pendingAcks ∧
          RetransmissionTimeout < now - p.LastSent ∧
          p.Attempts < MaxRetransmissions) ∧
        ((c.checkRetransmissions now).outbound.length < QueueCapacity →
          ∀ e ∈ c.pendingAcks, RetransmissionTimeout < now - e.2.LastSent →
            e.2.Attempts < MaxRetransmissions → e.2 ∈ l) := by
  have h := tick_fold_spec now c.pendingAcks [] c.outbound
  obtain ⟨h1, l, h2, h3, h4⟩ := h
  exact ⟨by simpa using h1, l, h2, h3, h4⟩

/-- A state with one live entry and one exhausted entry, both timed out. -/
def cTick : Connection :=
  { NewConnection 0 with pendingAcks :=
      [(0, { Sequence := 0, Mode := Reliable, Attempts := 1 }),
        (1, { Sequence := 1, Mode := Reliable, Attempts := 5 })] }

/-- C6 witness: at time 200 the exhausted entry (attempts = 5) is evicted
and the live one survives and is re-enqueued. -/
theorem retransmission_tick_contract_witness :
    ((cTick.checkRetransmissions 200).pendingAcks.map fun e => e.1) = [0] ∧
      ∃ l, (cTick.checkRetransmissions 200).outbound = cTick.outbound ++ l := by
  obtain ⟨h1, l, h2, -, -⟩ := retransmission_tick_contract cTick 200
  refine ⟨?_, l, h2⟩
  rw [h1]
  rfl

/-- updateAckBits changes only the ackBits field. -/
theorem updateAckBits_shape (c : Connection) (n : Nat) :
    ∃ ab, c.updateAckBits n = { c with ackBits := ab } := by
  simp only [Connection.updateAckBits]
  split
  · exact ⟨0, rfl⟩
  · exact ⟨_, rfl⟩

theorem drainOrderedLoop_pendingAcks (fuel : Nat) (c : Connection) :
    (drainOrderedLoop fuel c).pendingAcks = c.pendingAcks := by
  obtain ⟨ob, rs, inb, hdr, -⟩ := drainOrderedLoop_shape fuel c
  rw [hdr]

theorem handleOrdered_pendingAcks (c : Connection) (p : Packet) :
    (c.handleOrderedDelivery p).pendingAcks = c.pendingAcks := by
  simp only [Connection.handleOrderedDelivery]
  rw [drainOrderedLoop_pendingAcks]

theorem deliverPacket_pendingAcks (c : Connection) (p : Packet) :
    (c.deliverPacket p).pendingAcks = c.pendingAcks := by
  obtain ⟨inb, hdel⟩ := deliverPacket_shape c p
  rw [hdel]

/-- After handling an incoming packet, every pendingAcks entry is an old
entry (the ingest path only deletes from the map). -/
theorem processIncoming_pendingAcks_sub (c : Connection) (now : Nat)
    (p : Packet) (x : Nat × Packet)
    (hx : x ∈ (c.processIncomingPacket now p).pendingAcks) :
    x ∈ c.pendingAcks := by
  obtain ⟨m, hm, hsub⟩ :=
    processAcks_shape { c with lastReceived := now } p.Ack p.AckBits
  obtain ⟨ab, hab⟩ := updateAckBits_shape
    { c with lastReceived := now, pendingAcks := m } p.Sequence
  simp only [Connection.processIncomingPacket] at hx
  rw [hm, hab] at hx
  split at hx <;> split at hx <;>
    first
      | (rw [handleOrdered_pendingAcks] at hx; exact hsub x hx)
      | (rw [deliverPacket_pendingAcks] at hx; exact hsub x hx)

/-- After a retransmission tick, every pendingAcks entry is an old entry. -/
theorem checkRetransmissions_pendingAcks_sub (c : Connection) (now : Nat)
    (x : Nat × Packet)
    (hx : x ∈ (c.checkRetransmissions now).pendingAcks) :
    x ∈ c.pendingAcks := by
  have hspec := (tick_fold_spec now c.pendingAcks [] c.outbound).1
  simp only [Connection.checkRetransmissions] at hx
  rw [hspec] at hx
  simp only [List.nil_append] at hx
  exact (List.mem_filter.mp hx).1

/-- Send either leaves pendingAcks alone or inserts one reliable packet. -/
theorem send_pendingAcks (c : Connection) (now : Nat) (data : List Nat)
    (mode : Nat) :
    (c.Send now data mode).1.pendingAcks = c.pendingAcks ∨
      ∃ pkt : Packet, pkt.IsReliable = true ∧
        (c.Send now data mode).1.pendingAcks =
          mapInsert c.pendingAcks pkt.Sequence pkt := by
  simp only [Connection.Send]
  split
  · exact Or.inl rfl
  split
  · exact Or.inl rfl
  by_cases hrel : (mode == Reliable || mode == ReliableOrdered) = true
  · simp only [Packet.IsReliable, hrel, if_true]
    split
    · exact Or.inr ⟨mkSendPacket c now data mode,
        by simp [mkSendPacket, Packet.IsReliable, hrel], rfl⟩
    · exact Or.inr ⟨mkSendPacket c now data mode,
        by simp [mkSendPacket, Packet.IsReliable, hrel], rfl⟩
  · simp only [Bool.not_eq_true] at hrel
    simp only [Packet.IsReliable, hrel, Bool.false_eq_true, if_false]
    split
    · exact Or.inl rfl
    · exact Or.inl rfl

/-- The sender loop mutation keeps every pendingAcks entry reliable. -/
theorem sendPacket_pendingAcks_rel (c : Connection) (now : Nat) (p : Packet)
    (h : ∀ x ∈ c.pendingAcks, x.2.IsReliable = true) :
    ∀ x ∈ (c.sendPacket now p).pendingAcks, x.2.IsReliable = true := by
  intro x hx
  simp only [Connection.sendPacket] at hx
  split at hx
  · split at hx
    · replace hx : x ∈ mapUpdate c.pendingAcks p.Sequence (fun r => { r with Attempts := r.Attempts + 1, LastSent := now }) := hx
      rcases mem_mapUpdate _ _ _ _ hx with ⟨a, ha, hae⟩ | ⟨a, ha, hae⟩
      · rw [hae]
        exact h a ha
      · rw [hae]
        have hrel := h a ha
        simpa [Packet.IsReliable] using hrel
    · exact h x hx
  · exact h x hx

/-- Each concurrent event preserves the reliable-mode invariant of
pendingAcks. -/
theorem step_pendingAcks_reliable (c : Connection) (e : Event)
    (h : ∀ x ∈ c.pendingAcks, x.2.IsReliable = true) :
    ∀ x ∈ (step c e).pendingAcks, x.2.IsReliable = true := by
  cases e with
  | send now data mode =>
    intro x hx
    simp only [step] at hx
    rcases send_pendingAcks c now data mode with hp | ⟨pkt, hrel, hp⟩
    · rw [hp] at hx
      exact h x hx
    · rw [hp] at hx
      rcases mem_mapInsert _ _ _ _ hx with hm | hm
      · exact h x hm
      · rw [hm]
        exact hrel
  | drain now =>
    intro x hx
    simp only [step, Connection.drainOutbound] at hx
    split at hx
    · exact h x hx
    · refine sendPacket_pendingAcks_rel _ now _ ?_ x hx
      exact fun y hy => h y hy
  | tick now =>
    intro x hx
    simp only [step] at hx
    exact h x (checkRetransmissions_pendingAcks_sub c now x hx)
  | incoming now data =>
    intro x hx
    simp only [step, Connection.HandleIncomingPacket] at hx
    split at hx
    · exact h x hx
    · exact h x (processIncoming_pendingAcks_sub c now _ x hx)
  | close =>
    intro x hx
    exact h x hx

/-- In every reachable state, every pendingAcks entry is reliable. -/
theorem run_pendingAcks_reliable (evs : List Event) :
    ∀ x ∈ (run evs).pendingAcks, x.2.IsReliable = true := by
  have hgen : ∀ (l : List Event) (c : Connection),
      (∀ x ∈ c.pendingAcks, x.2.IsReliable = true) →
      ∀ x ∈ (l.foldl step c).pendingAcks, x.2.IsReliable = true := by
    intro l
    induction l with
    | nil => exact fun c hc => hc
    | cons e tl ih => exact fun c hc => ih _ (step_pendingAcks_reliable c e hc)
  exact hgen evs (NewConnection 0) (fun x hx => absurd hx (by simp [NewConnection]))

/-- C5 (amended): in every state reachable by any interleaving of the
connection's tasks, every pendingAcks entry holds a reliable packet; and a
retransmission tick never resends an entry whose attempt counter has
reached MAX_RETRANSMISSIONS = 5 — everything it appends to outbound has
attempts < 5 (exhausted entries are evicted instead).  The original bound
"attempts ≤ 5 while in pendingAcks" fails only through aliased queued
copies drained between ticks (see the counterexample). -/
theorem pendingAcks_invariant (evs : List Event) (now : Nat) :
    (∀ x ∈ (run evs).pendingAcks, x.2.IsReliable = true) ∧
      ∃ l, ((run evs).checkRetransmissions now).outbound =
          (run evs).outbound ++ l ∧
        ∀ p ∈ l, p.Attempts < MaxRetransmissions := by
  refine ⟨run_pendingAcks_reliable evs, ?_⟩
  obtain ⟨-, l, h2, h3, -⟩ :=
    tick_fold_spec now (run evs).pendingAcks [] (run evs).outbound
  refine ⟨l, ?_, fun p hp => ?_⟩
  · simp only [Connection.checkRetransmissions]
    exact h2
  · obtain ⟨s, -, -, hlt⟩ := h3 p hp
    exact hlt

/-- The single event of the C5 witness run. -/
def sendTrace : List Event := [.send 0 [1] 2]

/-- C5 witness: the invariant applied to the one-send run, evaluated at its
single pendingAcks entry. -/
theorem pendingAcks_invariant_witness :
    ((0 : Nat),
        ({ Sequence := 0, Mode := 2, Data := [1], uid := 0 } : Packet)) ∈
          (run sendTrace).pendingAcks ∧
      ({ Sequence := 0, Mode := 2, Data := [1], uid := 0 } : Packet).IsReliable
          = true ∧
      ∃ l, ((run sendTrace).checkRetransmissions 0).outbound =
          (run sendTrace).outbound ++ l ∧
        ∀ p ∈ l, p.Attempts < MaxRetransmissions := by
  obtain ⟨h1, h2⟩ := pendingAcks_invariant sendTrace 0
  exact ⟨by decide,
    h1 (0, { Sequence := 0, Mode := 2, Data := [1], uid := 0 }) (by decide),
    h2⟩

theorem drainOrderedLoop_ackBits (fuel : Nat) (c : Connection) :
    (drainOrderedLoop fuel c).ackBits = c.ackBits := by
  obtain ⟨ob, rs, inb, hdr, -⟩ := drainOrderedLoop_shape fuel c
  rw [hdr]

theorem deliverPacket_orderedBuffer (c : Connection) (p : Packet) :
    (c.deliverPacket p).orderedBuffer = c.orderedBuffer := by
  obtain ⟨inb, hdel⟩ := deliverPacket_shape c p
  rw [hdel]

theorem send_orderedBuffer (c : Connection) (now : Nat) (data : List Nat)
    (mode : Nat) :
    (c.Send now data mode).1.orderedBuffer = c.orderedBuffer := by
  simp only [Connection.Send]
  repeat' split
  all_goals rfl

theorem sendPacket_orderedBuffer (c : Connection) (now : Nat) (p : Packet) :
    (c.sendPacket now p).orderedBuffer = c.orderedBuffer := by
  simp only [Connection.sendPacket]
  split
  · split <;> rfl
  · rfl

/-- When the drain inserts an ordered packet whose sequence is not ahead of
the current cursor, every buffer entry keeps the insert-time invariant:
key = sequence, ordered mode, sequence not wrap-greater than the
remoteSequence recorded at insertion. -/
theorem handleOrdered_obInv (c : Connection) (p : Packet)
    (hord : p.IsOrdered = true)
    (hg : sequenceGreater p.Sequence c.remoteSequence = false)
    (h : ∀ e ∈ c.orderedBuffer, e.1 = e.2.1.Sequence ∧
      e.2.1.IsOrdered = true ∧ sequenceGreater e.2.1.Sequence e.2.2 = false) :
    ∀ e ∈ (c.handleOrderedDelivery p).orderedBuffer,
      e.1 = e.2.1.Sequence ∧ e.2.1.IsOrdered = true ∧
        sequenceGreater e.2.1.Sequence e.2.2 = false := by
  intro x hx
  simp only [Connection.handleOrderedDelivery] at hx
  obtain ⟨ob, rs, inb, hdr, hsub⟩ := drainOrderedLoop_shape
    (obInsert c.orderedBuffer p.Sequence p c.remoteSequence).length
    { c with orderedBuffer :=
        (obInsert c.orderedBuffer p.Sequence p c.remoteSequence) }
  rw [hdr] at hx
  have hx2 : x ∈ obInsert c.orderedBuffer p.Sequence p c.remoteSequence :=
    hsub x hx
  unfold obInsert at hx2
  rcases List.mem_append.mp hx2 with h1 | h1
  · exact h x (mem_obErase _ _ _ h1)
  · simp only [List.mem_singleton] at h1
    rw [h1]
    exact ⟨rfl, hord, hg⟩

/-- The ingest path preserves the orderedBuffer invariant: when a packet is
inserted, remoteSequence has already been advanced to it (or was already at
or past it), so the inserted sequence is never strictly ahead of the
recorded cursor. -/
theorem processIncoming_obInv (c : Connection) (now : Nat) (p : Packet)
    (h : ∀ e ∈ c.orderedBuffer, e.1 = e.2.1.Sequence ∧
      e.2.1.IsOrdered = true ∧ sequenceGreater e.2.1.Sequence e.2.2 = false) :
    ∀ e ∈ (c.processIncomingPacket now p).orderedBuffer,
      e.1 = e.2.1.Sequence ∧ e.2.1.IsOrdered = true ∧
        sequenceGreater e.2.1.Sequence e.2.2 = false := by
  intro x hx
  obtain ⟨m, hm, -⟩ :=
    processAcks_shape { c with lastReceived := now } p.Ack p.AckBits
  obtain ⟨ab, hab⟩ := updateAckBits_shape
    { c with lastReceived := now, pendingAcks := m } p.Sequence
  simp only [Connection.processIncomingPacket] at hx
  rw [hm, hab] at hx
  by_cases hord : p.IsOrdered = true
  · rw [if_pos hord] at hx
    split at hx
    · refine handleOrdered_obInv _ p hord ?_ ?_ x hx
      · exact sequenceGreater_irrefl p.Sequence
      · exact fun e he => h e he
    · rename_i hg
      refine handleOrdered_obInv _ p hord ?_ ?_ x hx
      · exact Bool.eq_false_iff.mpr hg
      · exact fun e he => h e he
  · rw [if_neg hord] at hx
    rw [deliverPacket_orderedBuffer] at hx
    split at hx
    · exact h x hx
    · exact h x hx

/-- Each concurrent event preserves the orderedBuffer invariant. -/
theorem step_obInv (c : Connection) (e : Event)
    (h : ∀ x ∈ c.orderedBuffer, x.1 = x.2.1.Sequence ∧
      x.2.1.IsOrdered = true ∧ sequenceGreater x.2.1.Sequence x.2.2 = false) :
    ∀ x ∈ (step c e).orderedBuffer, x.1 = x.2.1.Sequence ∧
      x.2.1.IsOrdered = true ∧
      sequenceGreater x.2.1.Sequence x.2.2 = false := by
  cases e with
  | send now data mode =>
    intro x hx
    simp only [step] at hx
    rw [send_orderedBuffer] at hx
    exact h x hx
  | drain now =>
    intro x hx
    simp only [step, Connection.drainOutbound] at hx
    split at hx
    · exact h x hx
    · rw [sendPacket_orderedBuffer] at hx
      exact h x hx
  | tick now =>
    intro x hx
    simp only [step, Connection.checkRetransmissions] at hx
    exact h x hx
  | incoming now data =>
    intro x hx
    simp only [step, Connection.HandleIncomingPacket] at hx
    split at hx
    · exact h x hx
    · exact processIncoming_obInv c now _ (fun e he => h e he) x hx
  | close =>
    intro x hx
    exact h x hx

/-- C4 (amended): in every reachable state, each orderedBuffer entry is
keyed by its packet's sequence, has an ordered delivery mode, and its
sequence was NOT strictly wrap-greater than the remoteSequence at the
moment of insertion — the opposite of the claimed strict inequality,
because HandleIncomingPacket advances remoteSequence to the packet's
sequence before handleOrderedDelivery inserts it (equality in that case,
at-or-behind for duplicates and stale packets). -/
theorem orderedBuffer_invariant (evs : List Event) :
    ∀ e ∈ (run evs).orderedBuffer, e.1 = e.2.1.Sequence ∧
      e.2.1.IsOrdered = true ∧
      sequenceGreater e.2.1.Sequence e.2.2 = false := by
  have hgen : ∀ (l : List Event) (c : Connection),
      (∀ x ∈ c.orderedBuffer, x.1 = x.2.1.Sequence ∧
        x.2.1.IsOrdered = true ∧
        sequenceGreater x.2.1.Sequence x.2.2 = false) →
      ∀ x ∈ (l.foldl step c).orderedBuffer, x.1 = x.2.1.Sequence ∧
        x.2.1.IsOrdered = true ∧
        sequenceGreater x.2.1.Sequence x.2.2 = false := by
    intro l
    induction l with
    | nil => exact fun c hc => hc
    | cons e tl ih => exact fun c hc => ih _ (step_obInv c e hc)
  exact hgen evs (NewConnection 0)
    (fun x hx => absurd hx (by simp [NewConnection]))

/-- C4 witness: the amended invariant evaluated at the single entry left by
one ordered packet (sequence 1) into a fresh connection. -/
theorem orderedBuffer_invariant_witness :
    ((1 : Nat), ({ Sequence := 1, Mode := 3, Data := [65] } : Packet),
        (1 : Nat)) ∈ (run obTrace).orderedBuffer ∧
      ((1 : Nat) =
          ({ Sequence := 1, Mode := 3, Data := [65] } : Packet).Sequence ∧
        ({ Sequence := 1, Mode := 3, Data := [65] } : Packet).IsOrdered
            = true ∧
        sequenceGreater
            ({ Sequence := 1, Mode := 3, Data := [65] } : Packet).Sequence 1
          = false) :=
  ⟨by decide, orderedBuffer_invariant obTrace
    (1, { Sequence := 1, Mode := 3, Data := [65] }, 1) (by decide)⟩

end RUDP
